import Mathlib

/-!
A shallow embedding of `src/src/ecdsa/public_key.rs` from the signatory
crate: ECDSA public keys held as compressed or uncompressed SEC1
Weierstrass curve points, with a length-dispatching byte constructor, an
untagged-point constructor, a byte view, equality, and an encode/decode
bridge over a generic encoding scheme.

Byte buffers are modelled as `List Nat` of byte values. External
collaborators of this module (the curve point constructors of the curve
module and the generic `Encoding` scheme of the encoding module, which
are not part of the sources here) are modelled from the spec, each
marked `Modelled from the spec` in its doc comment.
-/

namespace Signatory

/-- Byte buffers: lists of byte values. -/
abbrev Bytes := List Nat

/-- A Weierstrass curve descriptor: the associated size constants and the
debug name supplied by the `WeierstrassCurve` trait. The three sizes are
independent fields, exactly as the Rust trait declares three independent
associated types with no constraint between them. -/
structure Curve where
  compressedPointSize : Nat
  uncompressedPointSize : Nat
  untaggedPointSize : Nat
  curveKind : String

/-- The single error kind this module reports: `KeyInvalid`. -/
inductive ErrorKind where
  | KeyInvalid
deriving DecidableEq

/-- Modelled from the spec: the typed error of the error module (not part
of the sources here), carrying a kind and a descriptive message. The
`fail` macro of the source builds such an error from a kind and a
formatted message and returns it. -/
structure Error where
  kind : ErrorKind
  msg : String
deriving DecidableEq

/-- Modelled from the spec: `CompressedCurvePoint::new` of the curve
module (not part of the sources here) validates the SEC1 tag byte of a
compressed point, `0x02` or `0x03` encoding the parity, and stores the
byte buffer unchanged; the buffer size `CompressedPointSize` is enforced
at the type level by the `GenericArray` argument in Rust, hence by the
callers here. On failure it reports a point validity error, surfaced
verbatim. -/
def CompressedCurvePoint.new (array : Bytes) : Except Error Bytes :=
  if array.head? = some 2 ∨ array.head? = some 3 then
    Except.ok array
  else
    Except.error { kind := ErrorKind.KeyInvalid, msg := "compressed point encoding invalid" }

/-- Modelled from the spec: `UncompressedCurvePoint::new` of the curve
module (not part of the sources here) validates the SEC1 tag byte `0x04`
of an uncompressed point and stores the byte buffer unchanged; the
buffer size `UncompressedPointSize` is enforced at the type level by the
`GenericArray` argument in Rust, hence by the callers here. On failure
it reports a point validity error, surfaced verbatim. -/
def UncompressedCurvePoint.new (array : Bytes) : Except Error Bytes :=
  if array.head? = some 4 then
    Except.ok array
  else
    Except.error { kind := ErrorKind.KeyInvalid, msg := "uncompressed point encoding invalid" }

/-- ECDSA public keys: a tagged union over a compressed and an
uncompressed curve point, each point being its validated byte buffer. -/
inductive EcdsaPublicKey where
  | Compressed (point : Bytes)
  | Uncompressed (point : Bytes)
deriving DecidableEq

/-- `EcdsaPublicKey::from_bytes`: classify the slice by exact length,
copy it into a fixed buffer and delegate to the matching point
constructor; reject every other length with a `KeyInvalid` error naming
the curve kind and the observed length. -/
def EcdsaPublicKey.from_bytes (C : Curve) (slice : Bytes) : Except Error EcdsaPublicKey :=
  if slice.length = C.compressedPointSize then
    match CompressedCurvePoint.new slice with
    | Except.ok point => Except.ok (EcdsaPublicKey.Compressed point)
    | Except.error e => Except.error e
  else if slice.length = C.uncompressedPointSize then
    match UncompressedCurvePoint.new slice with
    | Except.ok point => Except.ok (EcdsaPublicKey.Uncompressed point)
    | Except.error e => Except.error e
  else
    Except.error
      { kind := ErrorKind.KeyInvalid,
        msg := "invalid length for " ++ C.curveKind ++ " public key: " ++
          toString slice.length }

/-- `EcdsaPublicKey::from_compressed_point`: pass the buffer directly to
the compressed point constructor, propagate its error verbatim, and wrap
a success as the `Compressed` variant. The buffer size
`CompressedPointSize` is enforced at the type level in Rust. -/
def EcdsaPublicKey.from_compressed_point (into_bytes : Bytes) : Except Error EcdsaPublicKey :=
  match CompressedCurvePoint.new into_bytes with
  | Except.ok point => Except.ok (EcdsaPublicKey.Compressed point)
  | Except.error e => Except.error e

/-- `EcdsaPublicKey::from_untagged_point`: allocate a default buffer of
size `UncompressedPointSize`, write `0x04` at index 0, copy the input
into indices 1 and up, and hand the buffer to the uncompressed point
constructor, unwrapping its result. `none` models the Rust abort paths:
the index write into an empty buffer, the copy with mismatched lengths
(the input is typed `GenericArray<u8, UntaggedPointSize>` in Rust, so
the guard holds whenever the curve sizes are consistent), and the unwrap
of a constructor error. -/
def EcdsaPublicKey.from_untagged_point (C : Curve) (bytes : Bytes) : Option EcdsaPublicKey :=
  if 0 < C.uncompressedPointSize ∧ bytes.length + 1 = C.uncompressedPointSize then
    let tagged_bytes := ((List.replicate C.uncompressedPointSize 0).set 0 4).take 1 ++ bytes
    match UncompressedCurvePoint.new tagged_bytes with
    | Except.ok point => some (EcdsaPublicKey.Uncompressed point)
    | Except.error _ => none
  else
    none

/-- `EcdsaPublicKey::as_bytes`: the stored byte buffer of whichever
variant is held; the point `as_bytes` accessors of the curve module
return the stored buffer unchanged. -/
def EcdsaPublicKey.as_bytes : EcdsaPublicKey → Bytes
  | EcdsaPublicKey.Compressed point => point
  | EcdsaPublicKey.Uncompressed point => point

/-- The variant tag of a key: `true` for `Compressed`. -/
def EcdsaPublicKey.isCompressed : EcdsaPublicKey → Bool
  | EcdsaPublicKey.Compressed _ => true
  | EcdsaPublicKey.Uncompressed _ => false

/-- The derived `PartialEq` of the source enum: equal variant tags and
byte for byte equal buffers. -/
def EcdsaPublicKey.eq : EcdsaPublicKey → EcdsaPublicKey → Bool
  | EcdsaPublicKey.Compressed a, EcdsaPublicKey.Compressed b => a == b
  | EcdsaPublicKey.Uncompressed a, EcdsaPublicKey.Uncompressed b => a == b
  | _, _ => false

/-- The derived `Clone` of the source enum: rebuild the same variant
around a copy of the stored buffer. -/
def EcdsaPublicKey.clone : EcdsaPublicKey → EcdsaPublicKey
  | EcdsaPublicKey.Compressed point => EcdsaPublicKey.Compressed point
  | EcdsaPublicKey.Uncompressed point => EcdsaPublicKey.Uncompressed point

/-- Modelled from the spec: the generic encoding scheme collaborator of
the encoding module (not part of the sources here). Its decode receives
the encoded input and the capacity of the output buffer it may write,
and returns the decoded bytes, whose count the Rust interface reports as
the returned length; its `encode_vec` returns the encoded bytes. -/
structure Encoding where
  decode : Bytes → Nat → Except Error Bytes
  encode_vec : Bytes → Bytes

/-- `Decode::decode` for `EcdsaPublicKey`: decode into a scratch buffer
sized for an uncompressed point, then run `from_bytes` on the prefix of
the actual decoded length. The scratch buffer holds the decoded bytes
followed by its untouched zero initialised tail. -/
def EcdsaPublicKey.decode (C : Curve) (encoding : Encoding) (encoded_signature : Bytes) :
    Except Error EcdsaPublicKey :=
  match encoding.decode encoded_signature C.uncompressedPointSize with
  | Except.error e => Except.error e
  | Except.ok decoded =>
    let array := decoded ++ List.replicate (C.uncompressedPointSize - decoded.length) 0
    let decoded_len := decoded.length
    EcdsaPublicKey.from_bytes C (array.take decoded_len)

/-- `Encode::encode` for `EcdsaPublicKey`: encode the byte view with the
scheme. -/
def EcdsaPublicKey.encode (key : EcdsaPublicKey) (encoding : Encoding) : Bytes :=
  encoding.encode_vec key.as_bytes

/-- The well-formedness invariant of a constructed key: the stored
buffer has the size its variant mandates for the curve and carries a
SEC1 tag byte that the corresponding point constructor accepts. -/
def EcdsaPublicKey.Valid (C : Curve) : EcdsaPublicKey → Prop
  | EcdsaPublicKey.Compressed point =>
      point.length = C.compressedPointSize ∧ (point.head? = some 2 ∨ point.head? = some 3)
  | EcdsaPublicKey.Uncompressed point =>
      point.length = C.uncompressedPointSize ∧ point.head? = some 4

/-- A test curve with the size shape of section 6 of the spec for
coordinate size 2: compressed 3, uncompressed 5, untagged 4. -/
def testCurve : Curve :=
  { compressedPointSize := 3, uncompressedPointSize := 5,
    untaggedPointSize := 4, curveKind := "TestCurve" }

/-- A degenerate curve whose declared compressed and uncompressed sizes
coincide, allowed by the unconstrained trait sizes. -/
def degenerateCurve : Curve :=
  { compressedPointSize := 3, uncompressedPointSize := 3,
    untaggedPointSize := 2, curveKind := "DegenerateCurve" }

/-- The identity encoding scheme: a well behaved scheme whose decode
returns the input bytes and whose encode is the identity. -/
def idEncoding : Encoding :=
  { decode := fun input _capacity => Except.ok input,
    encode_vec := fun bytes => bytes }

/-- C1: `from_bytes` classifies by exact length: at the compressed size
it delegates to the compressed point constructor and wraps a success as
`Compressed`; otherwise, at the uncompressed size, it delegates to the
uncompressed point constructor and wraps a success as `Uncompressed`. -/
theorem from_bytes_classifies_by_length (C : Curve) (slice : Bytes) :
    (slice.length = C.compressedPointSize →
      ∀ point, CompressedCurvePoint.new slice = Except.ok point →
        EcdsaPublicKey.from_bytes C slice = Except.ok (EcdsaPublicKey.Compressed point)) ∧
    (slice.length ≠ C.compressedPointSize → slice.length = C.uncompressedPointSize →
      ∀ point, UncompressedCurvePoint.new slice = Except.ok point →
        EcdsaPublicKey.from_bytes C slice = Except.ok (EcdsaPublicKey.Uncompressed point)) := by
  constructor
  · intro hlen point hnew
    unfold EcdsaPublicKey.from_bytes
    rw [if_pos hlen, hnew]
  · intro hne hlen point hnew
    unfold EcdsaPublicKey.from_bytes
    rw [if_neg hne, if_pos hlen, hnew]

/-- Witness for C1 on the test curve: a 3 byte slice with tag `0x02`
parses as `Compressed`, and a 5 byte slice with tag `0x04` parses as
`Uncompressed`. -/
theorem from_bytes_classifies_by_length_witness :
    EcdsaPublicKey.from_bytes testCurve [2, 10, 11] =
      Except.ok (EcdsaPublicKey.Compressed [2, 10, 11]) ∧
    EcdsaPublicKey.from_bytes testCurve [4, 10, 11, 12, 13] =
      Except.ok (EcdsaPublicKey.Uncompressed [4, 10, 11, 12, 13]) :=
  ⟨(from_bytes_classifies_by_length testCurve [2, 10, 11]).1 (by decide)
      [2, 10, 11] rfl,
   (from_bytes_classifies_by_length testCurve [4, 10, 11, 12, 13]).2 (by decide) (by decide)
      [4, 10, 11, 12, 13] rfl⟩

/-- C2: every slice whose length is neither the compressed nor the
uncompressed size is rejected, whatever its content, with a `KeyInvalid`
error whose message names the curve kind and the observed length. -/
theorem from_bytes_rejects_bad_length (C : Curve) (slice : Bytes)
    (h1 : slice.length ≠ C.compressedPointSize)
    (h2 : slice.length ≠ C.uncompressedPointSize) :
    EcdsaPublicKey.from_bytes C slice = Except.error
      { kind := ErrorKind.KeyInvalid,
        msg := "invalid length for " ++ C.curveKind ++ " public key: " ++
          toString slice.length } := by
  simp [EcdsaPublicKey.from_bytes, h1, h2]

/-- Witness for C2 on the test curve: a 1 byte slice is rejected with a
message naming the curve kind and the length. -/
theorem from_bytes_rejects_bad_length_witness :
    EcdsaPublicKey.from_bytes testCurve [9] = Except.error
      { kind := ErrorKind.KeyInvalid,
        msg := "invalid length for TestCurve public key: 1" } := by
  have h := from_bytes_rejects_bad_length testCurve [9] (by decide) (by decide)
  simpa using h

/-- The buffer built by `from_untagged_point`: a default buffer whose
byte 0 was set to `0x04` and whose tail was overwritten by the input is
the tag byte consed onto the input. -/
theorem tagged_buffer_eq (n : Nat) (hn : 0 < n) (bytes : Bytes) :
    ((List.replicate n 0).set 0 4).take 1 ++ bytes = 4 :: bytes := by
  cases n with
  | zero => exact absurd hn (by decide)
  | succ m => simp [List.replicate_succ]

/-- C3: `from_untagged_point` on a buffer of the untagged size yields the
`Uncompressed` variant whose byte view has the uncompressed length,
starts with the `0x04` tag and continues with the input bytes exactly. -/
theorem from_untagged_point_tags_input (C : Curve) (bytes : Bytes)
    (h1 : bytes.length = C.untaggedPointSize)
    (h2 : C.untaggedPointSize + 1 = C.uncompressedPointSize) :
    EcdsaPublicKey.from_untagged_point C bytes =
      some (EcdsaPublicKey.Uncompressed (4 :: bytes)) ∧
    (EcdsaPublicKey.Uncompressed (4 :: bytes)).as_bytes.length = C.uncompressedPointSize ∧
    (EcdsaPublicKey.Uncompressed (4 :: bytes)).as_bytes.head? = some 4 ∧
    (EcdsaPublicKey.Uncompressed (4 :: bytes)).as_bytes.tail = bytes := by
  have hpos : 0 < C.uncompressedPointSize := by omega
  have hlen : bytes.length + 1 = C.uncompressedPointSize := by omega
  refine ⟨?_, ?_, rfl, rfl⟩
  · unfold EcdsaPublicKey.from_untagged_point
    rw [if_pos ⟨hpos, hlen⟩]
    simp only [tagged_buffer_eq C.uncompressedPointSize hpos bytes]
    simp [UncompressedCurvePoint.new]
  · simp [EcdsaPublicKey.as_bytes]
    omega

/-- Witness for C3 on the test curve: the 4 byte input `[7, 8, 9, 10]`
yields the uncompressed key over `[4, 7, 8, 9, 10]`. -/
theorem from_untagged_point_tags_input_witness :
    EcdsaPublicKey.from_untagged_point testCurve [7, 8, 9, 10] =
      some (EcdsaPublicKey.Uncompressed (4 :: [7, 8, 9, 10])) ∧
    (EcdsaPublicKey.Uncompressed (4 :: [7, 8, 9, 10])).as_bytes.length =
      testCurve.uncompressedPointSize ∧
    (EcdsaPublicKey.Uncompressed (4 :: [7, 8, 9, 10])).as_bytes.head? = some 4 ∧
    (EcdsaPublicKey.Uncompressed (4 :: [7, 8, 9, 10])).as_bytes.tail = [7, 8, 9, 10] :=
  from_untagged_point_tags_input testCurve [7, 8, 9, 10] (by decide) (by decide)

/-- C4: `from_untagged_point` is infallible for inputs of the untagged
size: it returns a key, and the internal uncompressed point constructor
accepts the buffer built inside it, so the unwrapped error branch is
unreachable. -/
theorem from_untagged_point_never_fails (C : Curve) (bytes : Bytes)
    (h1 : bytes.length = C.untaggedPointSize)
    (h2 : C.untaggedPointSize + 1 = C.uncompressedPointSize) :
    (EcdsaPublicKey.from_untagged_point C bytes).isSome = true ∧
    (UncompressedCurvePoint.new
        (((List.replicate C.uncompressedPointSize 0).set 0 4).take 1 ++ bytes)).isOk = true := by
  have hpos : 0 < C.uncompressedPointSize := by omega
  have hlen : bytes.length + 1 = C.uncompressedPointSize := by omega
  have hnew : UncompressedCurvePoint.new
      (((List.replicate C.uncompressedPointSize 0).set 0 4).take 1 ++ bytes) =
      Except.ok (4 :: bytes) := by
    rw [tagged_buffer_eq C.uncompressedPointSize hpos bytes]
    simp [UncompressedCurvePoint.new]
  constructor
  · unfold EcdsaPublicKey.from_untagged_point
    rw [if_pos ⟨hpos, hlen⟩]
    simp [hnew]
  · simp [hnew, Except.isOk, Except.toBool]

/-- Witness for C4 on the test curve at the input `[7, 8, 9, 10]`. -/
theorem from_untagged_point_never_fails_witness :
    (EcdsaPublicKey.from_untagged_point testCurve [7, 8, 9, 10]).isSome = true ∧
    (UncompressedCurvePoint.new
        (((List.replicate testCurve.uncompressedPointSize 0).set 0 4).take 1 ++
          [7, 8, 9, 10])).isOk = true :=
  from_untagged_point_never_fails testCurve [7, 8, 9, 10] (by decide) (by decide)

/-- The compressed point constructor succeeds exactly on buffers with a
`0x02` or `0x03` tag, and then returns the buffer unchanged. -/
theorem compressed_new_ok_iff (array q : Bytes) :
    CompressedCurvePoint.new array = Except.ok q ↔
      (q = array ∧ (array.head? = some 2 ∨ array.head? = some 3)) := by
  unfold CompressedCurvePoint.new
  split
  · rename_i h
    simp [h, eq_comm]
  · rename_i h
    simp [h]

/-- The uncompressed point constructor succeeds exactly on buffers with a
`0x04` tag, and then returns the buffer unchanged. -/
theorem uncompressed_new_ok_iff (array q : Bytes) :
    UncompressedCurvePoint.new array = Except.ok q ↔
      (q = array ∧ array.head? = some 4) := by
  unfold UncompressedCurvePoint.new
  split
  · rename_i h
    simp [h, eq_comm]
  · rename_i h
    simp [h]

/-- C5: `decode` applies the length dispatch of `from_bytes` to exactly
the prefix of the actual decoded byte count in the scratch buffer, never
to the full scratch capacity, so the result equals `from_bytes` on the
decoded bytes. -/
theorem decode_uses_decoded_length (C : Curve) (encoding : Encoding)
    (encoded decoded : Bytes)
    (hdec : encoding.decode encoded C.uncompressedPointSize = Except.ok decoded) :
    EcdsaPublicKey.decode C encoding encoded = EcdsaPublicKey.from_bytes C decoded := by
  unfold EcdsaPublicKey.decode
  rw [hdec]
  simp only [List.take_left]

/-- Witness for C5 with the identity scheme on the test curve. -/
theorem decode_uses_decoded_length_witness :
    EcdsaPublicKey.decode testCurve idEncoding [2, 10, 11] =
      EcdsaPublicKey.from_bytes testCurve [2, 10, 11] :=
  decode_uses_decoded_length testCurve idEncoding [2, 10, 11] [2, 10, 11] rfl

/-- C6: round trip through the byte view: a key built by
`from_compressed_point` from an accepted compressed buffer of the
compressed size re-parses through `from_bytes` to the same result, and
any key returned by `from_bytes` re-parses from its byte view to itself,
which covers the uncompressed case as well. -/
theorem round_trip_through_bytes (C : Curve) (p : Bytes) :
    (p.length = C.compressedPointSize →
      ∀ key, EcdsaPublicKey.from_compressed_point p = Except.ok key →
        EcdsaPublicKey.from_bytes C key.as_bytes =
          EcdsaPublicKey.from_compressed_point p) ∧
    (∀ key, EcdsaPublicKey.from_bytes C p = Except.ok key →
      EcdsaPublicKey.from_bytes C key.as_bytes = Except.ok key) := by
  constructor
  · intro hlen key hkey
    unfold EcdsaPublicKey.from_compressed_point at hkey ⊢
    cases hnew : CompressedCurvePoint.new p with
    | error e => rw [hnew] at hkey; exact absurd hkey (by simp)
    | ok q =>
      rw [hnew] at hkey
      obtain ⟨hq, htag⟩ := (compressed_new_ok_iff p q).mp hnew
      have hkeyq : key = EcdsaPublicKey.Compressed q := by
        simpa [eq_comm] using hkey
      subst hkeyq hq
      unfold EcdsaPublicKey.from_bytes
      simp only [EcdsaPublicKey.as_bytes]
      rw [if_pos hlen, hnew]
  · intro key hkey
    unfold EcdsaPublicKey.from_bytes at hkey
    split at hkey
    · rename_i hlen
      cases hnew : CompressedCurvePoint.new p with
      | error e => rw [hnew] at hkey; exact absurd hkey (by simp)
      | ok q =>
        rw [hnew] at hkey
        obtain ⟨hq, htag⟩ := (compressed_new_ok_iff p q).mp hnew
        have hkeyq : key = EcdsaPublicKey.Compressed q := by
          simpa [eq_comm] using hkey
        subst hkeyq hq
        unfold EcdsaPublicKey.from_bytes
        simp only [EcdsaPublicKey.as_bytes]
        rw [if_pos hlen, hnew]
    · rename_i hne
      split at hkey
      · rename_i hlen
        cases hnew : UncompressedCurvePoint.new p with
        | error e => rw [hnew] at hkey; exact absurd hkey (by simp)
        | ok q =>
          rw [hnew] at hkey
          obtain ⟨hq, htag⟩ := (uncompressed_new_ok_iff p q).mp hnew
          have hkeyq : key = EcdsaPublicKey.Uncompressed q := by
            simpa [eq_comm] using hkey
          subst hkeyq hq
          unfold EcdsaPublicKey.from_bytes
          simp only [EcdsaPublicKey.as_bytes]
          rw [if_neg hne, if_pos hlen, hnew]
      · exact absurd hkey (by simp)

/-- Witness for C6 on the test curve: the compressed key over
`[2, 10, 11]` and the uncompressed key over `[4, 10, 11, 12, 13]` both
survive the round trip. -/
theorem round_trip_through_bytes_witness :
    EcdsaPublicKey.from_bytes testCurve
        (EcdsaPublicKey.Compressed [2, 10, 11]).as_bytes =
      EcdsaPublicKey.from_compressed_point [2, 10, 11] ∧
    EcdsaPublicKey.from_bytes testCurve
        (EcdsaPublicKey.Uncompressed [4, 10, 11, 12, 13]).as_bytes =
      Except.ok (EcdsaPublicKey.Uncompressed [4, 10, 11, 12, 13]) :=
  ⟨(round_trip_through_bytes testCurve [2, 10, 11]).1 (by decide)
      (EcdsaPublicKey.Compressed [2, 10, 11]) rfl,
   (round_trip_through_bytes testCurve [4, 10, 11, 12, 13]).2
      (EcdsaPublicKey.Uncompressed [4, 10, 11, 12, 13]) rfl⟩

/-- C7: `decode` after `encode` returns the key unchanged, for every
well formed key and a scheme whose decode inverts its encode within the
scratch capacity. The hypothesis that the two curve sizes differ holds
for every SEC1 curve, whose compressed and uncompressed encodings take
`1 + n` and `1 + 2 * n` bytes for a positive coordinate size `n`. -/
theorem encode_decode_inverse (C : Curve) (encoding : Encoding) (key : EcdsaPublicKey)
    (hvalid : EcdsaPublicKey.Valid C key)
    (hsizes : C.compressedPointSize ≠ C.uncompressedPointSize)
    (hscheme : encoding.decode (encoding.encode_vec key.as_bytes)
        C.uncompressedPointSize = Except.ok key.as_bytes) :
    EcdsaPublicKey.decode C encoding (EcdsaPublicKey.encode key encoding) =
      Except.ok key := by
  unfold EcdsaPublicKey.encode EcdsaPublicKey.decode
  rw [hscheme]
  simp only [List.take_left]
  cases key with
  | Compressed point =>
    obtain ⟨hlen, htag⟩ := hvalid
    unfold EcdsaPublicKey.from_bytes
    simp only [EcdsaPublicKey.as_bytes]
    rw [if_pos hlen]
    unfold CompressedCurvePoint.new
    rw [if_pos htag]
  | Uncompressed point =>
    obtain ⟨hlen, htag⟩ := hvalid
    unfold EcdsaPublicKey.from_bytes
    simp only [EcdsaPublicKey.as_bytes]
    rw [if_neg (by rw [hlen]; exact fun h => hsizes h.symm), if_pos hlen]
    unfold UncompressedCurvePoint.new
    rw [if_pos htag]

/-- Witness for C7 with the identity scheme on the test curve for a
compressed key. -/
theorem encode_decode_inverse_witness :
    EcdsaPublicKey.decode testCurve idEncoding
        (EcdsaPublicKey.encode (EcdsaPublicKey.Compressed [2, 10, 11]) idEncoding) =
      Except.ok (EcdsaPublicKey.Compressed [2, 10, 11]) :=
  encode_decode_inverse testCurve idEncoding (EcdsaPublicKey.Compressed [2, 10, 11])
    ⟨rfl, Or.inl rfl⟩ (by decide) rfl

/-- C8: `as_bytes` returns the exact stored buffer of the variant held,
and every key constructed by `from_bytes` or `from_compressed_point` has
the byte length its variant mandates for the curve. -/
theorem as_bytes_variant_fidelity (C : Curve) (point slice : Bytes) :
    (EcdsaPublicKey.Compressed point).as_bytes = point ∧
    (EcdsaPublicKey.Uncompressed point).as_bytes = point ∧
    (∀ key, EcdsaPublicKey.from_bytes C slice = Except.ok key →
      (key.isCompressed = true → key.as_bytes.length = C.compressedPointSize) ∧
      (key.isCompressed = false → key.as_bytes.length = C.uncompressedPointSize)) ∧
    (point.length = C.compressedPointSize →
      ∀ key, EcdsaPublicKey.from_compressed_point point = Except.ok key →
        key.as_bytes.length = C.compressedPointSize) := by
  refine ⟨rfl, rfl, ?_, ?_⟩
  · intro key hkey
    unfold EcdsaPublicKey.from_bytes at hkey
    split at hkey
    · rename_i hlen
      cases hnew : CompressedCurvePoint.new slice with
      | error e => rw [hnew] at hkey; exact absurd hkey (by simp)
      | ok q =>
        rw [hnew] at hkey
        obtain ⟨hq, htag⟩ := (compressed_new_ok_iff slice q).mp hnew
        have hkeyq : key = EcdsaPublicKey.Compressed q := by
          simpa [eq_comm] using hkey
        subst hkeyq hq
        constructor
        · intro _
          simpa [EcdsaPublicKey.as_bytes] using hlen
        · intro hfalse
          exact absurd hfalse (by simp [EcdsaPublicKey.isCompressed])
    · rename_i hne
      split at hkey
      · rename_i hlen
        cases hnew : UncompressedCurvePoint.new slice with
        | error e => rw [hnew] at hkey; exact absurd hkey (by simp)
        | ok q =>
          rw [hnew] at hkey
          obtain ⟨hq, htag⟩ := (uncompressed_new_ok_iff slice q).mp hnew
          have hkeyq : key = EcdsaPublicKey.Uncompressed q := by
            simpa [eq_comm] using hkey
          subst hkeyq hq
          constructor
          · intro htrue
            exact absurd htrue (by simp [EcdsaPublicKey.isCompressed])
          · intro _
            simpa [EcdsaPublicKey.as_bytes] using hlen
      · exact absurd hkey (by simp)
  · intro hlen key hkey
    unfold EcdsaPublicKey.from_compressed_point at hkey
    cases hnew : CompressedCurvePoint.new point with
    | error e => rw [hnew] at hkey; exact absurd hkey (by simp)
    | ok q =>
      rw [hnew] at hkey
      obtain ⟨hq, htag⟩ := (compressed_new_ok_iff point q).mp hnew
      have hkeyq : key = EcdsaPublicKey.Compressed q := by
        simpa [eq_comm] using hkey
      subst hkeyq hq
      simpa [EcdsaPublicKey.as_bytes] using hlen

/-- Witness for C8 on the test curve: exact byte view of a compressed
key and its stored length. -/
theorem as_bytes_variant_fidelity_witness :
    (EcdsaPublicKey.Compressed [2, 10, 11]).as_bytes = [2, 10, 11] ∧
    (EcdsaPublicKey.Compressed [2, 10, 11]).as_bytes.length =
      testCurve.compressedPointSize :=
  ⟨(as_bytes_variant_fidelity testCurve [2, 10, 11] [2, 10, 11]).1,
   ((as_bytes_variant_fidelity testCurve [2, 10, 11] [2, 10, 11]).2.2.1
      (EcdsaPublicKey.Compressed [2, 10, 11]) rfl).1 rfl⟩

/-- C9: two keys are equal exactly when they carry the same variant tag
and byte for byte identical buffers, and cloning yields an equal key. -/
theorem eq_iff_same_variant_and_bytes (k1 k2 : EcdsaPublicKey) :
    (EcdsaPublicKey.eq k1 k2 = true ↔
      (k1.isCompressed = k2.isCompressed ∧ k1.as_bytes = k2.as_bytes)) ∧
    EcdsaPublicKey.eq (EcdsaPublicKey.clone k1) k1 = true := by
  constructor
  · cases k1 <;> cases k2 <;>
      simp [EcdsaPublicKey.eq, EcdsaPublicKey.isCompressed, EcdsaPublicKey.as_bytes]
  · cases k1 <;> simp [EcdsaPublicKey.eq, EcdsaPublicKey.clone]

/-- Witness for C9: equality of identical compressed keys through the
characterisation, and a cloned uncompressed key equal to its source. -/
theorem eq_iff_same_variant_and_bytes_witness :
    EcdsaPublicKey.eq (EcdsaPublicKey.Compressed [2, 10, 11])
      (EcdsaPublicKey.Compressed [2, 10, 11]) = true ∧
    EcdsaPublicKey.eq
      (EcdsaPublicKey.clone (EcdsaPublicKey.Uncompressed [4, 10, 11, 12, 13]))
      (EcdsaPublicKey.Uncompressed [4, 10, 11, 12, 13]) = true :=
  ⟨(eq_iff_same_variant_and_bytes (EcdsaPublicKey.Compressed [2, 10, 11])
      (EcdsaPublicKey.Compressed [2, 10, 11])).1.mpr ⟨rfl, rfl⟩,
   (eq_iff_same_variant_and_bytes (EcdsaPublicKey.Uncompressed [4, 10, 11, 12, 13])
      (EcdsaPublicKey.Uncompressed [4, 10, 11, 12, 13])).2⟩

/-- C10: the compressed length test comes first, so on a curve whose
compressed and uncompressed sizes coincide every slice of that length
goes to the compressed point constructor alone and `from_bytes` can
never return the `Uncompressed` variant. -/
theorem from_bytes_compressed_priority (C : Curve) (slice : Bytes)
    (heq : C.compressedPointSize = C.uncompressedPointSize) :
    (slice.length = C.compressedPointSize →
      EcdsaPublicKey.from_bytes C slice =
        Except.map EcdsaPublicKey.Compressed (CompressedCurvePoint.new slice)) ∧
    (∀ point, EcdsaPublicKey.from_bytes C slice ≠
      Except.ok (EcdsaPublicKey.Uncompressed point)) := by
  constructor
  · intro hlen
    unfold EcdsaPublicKey.from_bytes
    rw [if_pos hlen]
    cases CompressedCurvePoint.new slice <;> simp [Except.map]
  · intro point hcontra
    unfold EcdsaPublicKey.from_bytes at hcontra
    by_cases hlen : slice.length = C.compressedPointSize
    · rw [if_pos hlen] at hcontra
      cases hnew : CompressedCurvePoint.new slice <;>
        rw [hnew] at hcontra <;> simp at hcontra
    · rw [if_neg hlen, if_neg (heq ▸ hlen)] at hcontra
      simp at hcontra

/-- Witness for C10 on the degenerate curve with both sizes 3: a 3 byte
slice tagged `0x04` is sent to the compressed constructor and is never
the `Uncompressed` variant. -/
theorem from_bytes_compressed_priority_witness :
    EcdsaPublicKey.from_bytes degenerateCurve [4, 10, 11] =
      Except.map EcdsaPublicKey.Compressed (CompressedCurvePoint.new [4, 10, 11]) ∧
    EcdsaPublicKey.from_bytes degenerateCurve [4, 10, 11] ≠
      Except.ok (EcdsaPublicKey.Uncompressed [4, 10, 11]) :=
  ⟨(from_bytes_compressed_priority degenerateCurve [4, 10, 11] rfl).1 (by decide),
   (from_bytes_compressed_priority degenerateCurve [4, 10, 11] rfl).2 [4, 10, 11]⟩

end Signatory
